import Mathlib

/-!
Verification development for the pycoerce library (src/pycoerce/postgresql.py and
src/pycoerce/pyarrow.py).  The two encoder modules are shallowly embedded below:
pure Python functions become Lean functions, Python dicts used as association
tables become association lists (lookup takes the first matching entry, so the
caller-supplied hooks placed in front of the built-ins model the dict merge
`{**defaults, **hooks}`), and every `raise` site becomes a distinct constructor
of an error type returned through `Except`.
-/

/-- Runtime-type identifiers (Python `type(obj)` results) that the encoders
inspect.  `otherT name` stands for any further class, identified by its name. -/
inductive PyType where
  | intT | boolT | bytesT | bytearrayT | memoryviewT | floatT | strT
  | complexT | listT | dictT | tupleT | setT | frozensetT | rangeT
  | otherT (name : String)
deriving DecidableEq, Repr

/-- First-match lookup in an association table keyed by runtime types; models
Python dict lookup (`table[pytype]` / `pytype in table`) once caller entries
have been placed before built-in entries. -/
def hook_lookup {α : Type} : List (PyType × α) → PyType → Option α
  | [], _ => none
  | (k, v) :: rest, t => if k = t then some v else hook_lookup rest t

/-- Monadic map over `Except`, stopping at the first error; models a Python
list comprehension whose body may raise, evaluated left to right. -/
def mapME {ε α β : Type} (f : α → Except ε β) : List α → Except ε (List β)
  | [] => .ok []
  | x :: xs =>
    match f x with
    | .error e => .error e
    | .ok y =>
      match mapME f xs with
      | .error e => .error e
      | .ok ys => .ok (y :: ys)

namespace Postgresql

/-- A hook-table entry: a literal SQL type name (a `str`), a callable taking
the runtime type, or anything else (neither a string nor callable). -/
inductive Resolver where
  | literal (s : String)
  | fn (f : PyType → String)
  | invalid

/-- One constructor per distinct `raise` site of postgresql.py.  All of them
are `TypeError` in Python and are distinguished by their messages.
* `no_corresponding t`: line 83, "SQL does not have a type corresponding to
  {t}."  In the terms of the spec this is the UnsupportedTypeError raised for a
  type absent from the hook table.
* `nested t`: lines 86-92, the nested-type message (spec: NestedTypeError).
* `no_default t`: lines 95-101, the UNSUPPORTED message (spec:
  UnsupportedTypeError for a type with no sensible SQL default).
* `hook_not_str_or_callable t`: lines 71-76 (spec: ConfigurationError).
* `cannot_encode`: lines 139-144 (spec: UnencodableTypeError).  This raise
  never calls `.format(obj_t)`, so the message keeps its unfilled placeholder
  and carries no information about the offending type; accordingly the
  constructor has no payload.
* `key_error t`: the host KeyError `self.hooks[pytype]` would raise if
  `_resolve_hook` were reached without a table entry (never happens: every
  caller checks membership first). -/
inductive Error where
  | no_corresponding (t : PyType)
  | nested (t : PyType)
  | no_default (t : PyType)
  | hook_not_str_or_callable (t : PyType)
  | cannot_encode
  | key_error (t : PyType)
deriving DecidableEq, Repr

/-- Python values as the SQL-variant encoder sees them.  The encoder only ever
inspects `type(obj)`, iterates non-dict iterables, and reads the keys/values of
dicts, so a value is: a non-iterable scalar of some type, a non-dict iterable
of some type together with its elements in iteration order, or a dict. -/
inductive Val where
  | atom (t : PyType)
  | pseq (t : PyType) (elems : List Val)
  | pdict (entries : List (String × Val))

/-- `type(obj)`. -/
def type_of : Val → PyType
  | .atom t => t
  | .pseq t _ => t
  | .pdict _ => .dictT

/-- Source line 24: `NESTED = [range, iter, list, dict, tuple, set, frozenset]`.
The entry `iter` is the built-in function, not a type, and `type(obj)` can
never equal it, so that element of the list is dead and is omitted here. -/
def NESTED : List PyType := [.rangeT, .listT, .dictT, .tupleT, .setT, .frozensetT]

/-- Source line 30: `UNSUPPORTED = [complex]`. -/
def UNSUPPORTED : List PyType := [.complexT]

/-- The built-in hook table from `PostgresTypeEncoder.__init__` (lines 51-60). -/
def default_hooks : List (PyType × Resolver) :=
  [ (.intT, .literal "integer"), (.boolT, .literal "boolean"),
    (.bytesT, .literal "bytea"), (.bytearrayT, .literal "bytea"),
    (.memoryviewT, .literal "bytea"), (.floatT, .literal "real"),
    (.strT, .literal "text") ]

/-- `self.hooks = {int: ..., **hooks}`: caller entries override built-ins, so
under first-match lookup the caller entries come first. -/
def init_hooks (hooks : List (PyType × Resolver)) : List (PyType × Resolver) :=
  hooks ++ default_hooks

/-- `PostgresTypeEncoder._resolve_hook` (lines 62-76). -/
def resolve_hook (hooks : List (PyType × Resolver)) (pytype : PyType) : Except Error String :=
  match hook_lookup hooks pytype with
  | some (.literal s) => .ok s
  | some (.fn f) => .ok (f pytype)
  | some .invalid => .error (.hook_not_str_or_callable pytype)
  | none => .error (.key_error pytype)

/-- The validation loop of `_validate_object_types` (lines 81-101), checked in
source order for each type in turn: hook-table membership first, then the
NESTED list, then the UNSUPPORTED list. -/
def check_types (hooks : List (PyType × Resolver)) : List PyType → Except Error Unit
  | [] => .ok ()
  | t :: rest =>
    if (hook_lookup hooks t).isNone then .error (.no_corresponding t)
    else if NESTED.contains t then .error (.nested t)
    else if UNSUPPORTED.contains t then .error (.no_default t)
    else check_types hooks rest

/-- `PostgresTypeEncoder._validate_object_types` (lines 78-103): computes the
item types, runs the checks, and returns the type list. -/
def validate_object_types (hooks : List (PyType × Resolver)) (obj : List Val) :
    Except Error (List PyType) :=
  let types := obj.map type_of
  (check_types hooks types).map fun _ => types

/-- `PostgresTypeEncoder._iter_to_sql_types` (lines 105-107). -/
def iter_to_sql_types (hooks : List (PyType × Resolver)) (obj : List Val) :
    Except Error (List String) :=
  match validate_object_types hooks obj with
  | .error e => .error e
  | .ok types => mapME (resolve_hook hooks) types

/-- `PostgresTypeEncoder._dict_to_sql_columns` (lines 109-111):
`zip(obj.keys(), types)` resolved entrywise into a new dict. -/
def dict_to_sql_columns (hooks : List (PyType × Resolver))
    (entries : List (String × Val)) : Except Error (List (String × String)) :=
  match validate_object_types hooks (entries.map Prod.snd) with
  | .error e => .error e
  | .ok types =>
    mapME (fun kt => (resolve_hook hooks kt.2).map fun s => (kt.1, s))
      ((entries.map Prod.fst).zip types)

/-- The three result shapes of `encode`: a single SQL type name, a dict of
column types, or a list of types. -/
inductive Output where
  | single (s : String)
  | columns (fields : List (String × String))
  | types (ts : List String)
deriving DecidableEq, Repr

/-- `PostgresTypeEncoder.encode` (lines 113-144): hook-table entries are tried
for the top-level type first; otherwise dicts are split into columns, other
iterables into type lists, and anything else raises the final (formatless)
TypeError. -/
def encode (hooks : List (PyType × Resolver)) (obj : Val) : Except Error Output :=
  let obj_t := type_of obj
  if (hook_lookup hooks obj_t).isSome then
    (resolve_hook hooks obj_t).map Output.single
  else
    match obj with
    | .pdict entries => (dict_to_sql_columns hooks entries).map Output.columns
    | .pseq _ elems => (iter_to_sql_types hooks elems).map Output.types
    | .atom _ => .error .cannot_encode

/-- Module-level `dumps` (lines 146-176): construct the encoder with the
caller hooks merged over the built-ins, then encode once. -/
def dumps (hooks : List (PyType × Resolver)) (obj : Val) : Except Error Output :=
  encode (init_hooks hooks) obj

end Postgresql

namespace Pyarrow

/-- Dict keys as pyarrow.py can meet them: the examples use strings, but any
hashable object may be a key; strings and integers are enough to exercise the
comparison behaviour of `sorted`. -/
inductive PyKey where
  | kstr (s : String)
  | kint (n : Int)
deriving DecidableEq, Repr

/-- True exactly for string keys. -/
def PyKey.isStr : PyKey → Bool
  | .kstr _ => true
  | .kint _ => false

/-- One constructor per way pyarrow.py can raise.
* `empty_list`: line 246, the TypeError for an empty list (spec:
  EmptyListError).
* `key_error t`: line 280, `self.hooks[pytype]` raises KeyError when the type
  has no entry (spec: UnsupportedTypeError).
* `not_callable`: line 280 again, `self.hooks[pytype]()` raises the host
  TypeError when the stored entry is not callable.
* `cmp_error a b`: line 213, `sorted(obj.items())` raises the host TypeError
  when it compares keys of incomparable types, naming the two offenders.
* `recursion_error`: the host RecursionError; the embedding bounds the
  recursion with explicit fuel and this value marks fuel exhaustion.  The
  top-level entry point always supplies enough fuel, so it is unreachable
  from `encode`. -/
inductive Error where
  | empty_list
  | key_error (t : PyType)
  | not_callable
  | cmp_error (a b : PyKey)
  | recursion_error
deriving DecidableEq, Repr

/-- A pyarrow target type descriptor (`pa.DataType`): a primitive, `pa.list_`
of an element type, or `pa.struct` over named fields. -/
inductive DataType where
  | int64
  | string
  | bool_
  | binary
  | float64
  | list_ (elem : DataType)
  | struct (fields : List (PyKey × DataType))

/-- A hook-table entry for the columnar variant.  The built-ins are the
zero-argument callables `pa.int64`, `pa.string`, ...; `literal` stands for any
non-callable entry (for instance an already-constructed DataType). -/
inductive Resolver where
  | literal (t : DataType)
  | fn (f : Unit → DataType)

/-- Python values as pyarrow.py sees them.  Scalars carry their payloads
(bytes and float payloads are opaque identifiers: the encoder never reads
them), lists carry their elements, dicts their key/value pairs in insertion
order, and `vother t` is a value of any further type `t`. -/
inductive Val where
  | vint (n : Int)
  | vstr (s : String)
  | vbool (b : Bool)
  | vbytes (id : Nat)
  | vfloat (id : Nat)
  | vlist (xs : List Val)
  | vdict (entries : List (PyKey × Val))
  | vother (t : PyType)

instance : Inhabited Val := ⟨.vint 0⟩

mutual

/-- Structural size of a value; one more than the size of the largest chain of
sub-values, used as the fuel bound of the recursive encoder below. -/
def Val.size : Val → Nat
  | .vint _ => 1
  | .vstr _ => 1
  | .vbool _ => 1
  | .vbytes _ => 1
  | .vfloat _ => 1
  | .vlist xs => 1 + Val.sizeList xs
  | .vdict es => 1 + Val.sizeEntries es
  | .vother _ => 1

/-- Size of a list of values. -/
def Val.sizeList : List Val → Nat
  | [] => 1
  | x :: xs => 1 + Val.size x + Val.sizeList xs

/-- Size of a list of dict entries. -/
def Val.sizeEntries : List (PyKey × Val) → Nat
  | [] => 1
  | (_, v) :: es => 1 + Val.size v + Val.sizeEntries es

end

/-- `type(obj)`. -/
def type_of : Val → PyType
  | .vint _ => .intT
  | .vstr _ => .strT
  | .vbool _ => .boolT
  | .vbytes _ => .bytesT
  | .vfloat _ => .floatT
  | .vlist _ => .listT
  | .vdict _ => .dictT
  | .vother t => t

/-- The built-in hook table from `PyarrowTypeEncoder.__init__` (lines 229-237):
every entry is a zero-argument callable producing a DataType. -/
def default_hooks : List (PyType × Resolver) :=
  [ (.intT, .fn fun _ => .int64), (.strT, .fn fun _ => .string),
    (.boolT, .fn fun _ => .bool_), (.bytesT, .fn fun _ => .binary),
    (.floatT, .fn fun _ => .float64) ]

/-- `self.hooks = {int: pa.int64, ..., **hooks}`: caller entries override
built-ins, so under first-match lookup the caller entries come first. -/
def init_hooks (hooks : List (PyType × Resolver)) : List (PyType × Resolver) :=
  hooks ++ default_hooks

/-- Line 280, `return self.hooks[pytype]()`: look the type up (KeyError when
absent) and invoke the stored entry (TypeError when it is not callable). -/
def call_hook (hooks : List (PyType × Resolver)) (t : PyType) : Except Error DataType :=
  match hook_lookup hooks t with
  | none => .error (.key_error t)
  | some (.fn f) => .ok (f ())
  | some (.literal _) => .error .not_callable

/-- Lexicographic less-or-equal on character sequences by code point; exactly
how Python orders `str` values (and how Lean orders `String`, spelt out here
as a plain structural recursion). -/
def chars_le : List Char → List Char → Bool
  | [], _ => true
  | _ :: _, [] => false
  | c :: cs, d :: ds =>
    if c.toNat < d.toNat then true
    else if d.toNat < c.toNat then false
    else chars_le cs ds

/-- Python string comparison, code point by code point. -/
def str_le (a b : String) : Bool := chars_le a.data b.data

/-- The comparison `sorted` performs between two dict items `(k, v)`.  Python
compares the tuples lexicographically; since dict keys are unique, two keys of
a dict never compare equal and the values are never reached, so the comparison
reduces to the keys: fine for keys of one kind, a TypeError for a string
against an integer. -/
def key_le : PyKey → PyKey → Except Error Bool
  | .kstr a, .kstr b => .ok (str_le a b)
  | .kint a, .kint b => .ok (decide (a ≤ b))
  | a, b => .error (.cmp_error a b)

/-- Insert an item into an already-sorted item list, failing on the first
incomparable pair of keys. -/
def ordered_insert {β : Type} (x : PyKey × β) :
    List (PyKey × β) → Except Error (List (PyKey × β))
  | [] => .ok [x]
  | y :: ys =>
    match key_le x.1 y.1 with
    | .error e => .error e
    | .ok true => .ok (x :: y :: ys)
    | .ok false => (ordered_insert x ys).map fun r => y :: r

/-- `order_by_key` (lines 207-213): `dict(OrderedDict(sorted(obj.items())))`,
a new dict holding the same items in ascending key order, or the host
TypeError of `sorted` when two keys are incomparable. -/
def order_by_key {β : Type} : List (PyKey × β) → Except Error (List (PyKey × β))
  | [] => .ok []
  | x :: xs =>
    match order_by_key xs with
    | .error e => .error e
    | .ok s => ordered_insert x s

/-- `PyarrowTypeEncoder._pytype_to_pyarrow_type` (lines 239-280), with an
explicit fuel bound on the recursion depth standing for the host recursion
limit (the Python original recurses without its own bound).  A list takes the
type of its first element (`pa.list_(encode(obj[0]))`, empty lists raising the
TypeError of line 246); a dict is first reordered by `order_by_key`, then each
value is encoded in the sorted order and the named fields form a struct; every
other value resolves through `self.hooks[type(obj)]()`. -/
def pytype_to_pyarrow_type_go (hooks : List (PyType × Resolver)) :
    Nat → Val → Except Error DataType
  | 0, _ => .error .recursion_error
  | fuel + 1, v =>
    match v with
    | .vlist [] => .error .empty_list
    | .vlist (x :: _) => (pytype_to_pyarrow_type_go hooks fuel x).map .list_
    | .vdict entries =>
      match order_by_key entries with
      | .error e => .error e
      | .ok sorted =>
        (mapME (fun e => (pytype_to_pyarrow_type_go hooks fuel e.2).map fun t => (e.1, t))
          sorted).map .struct
    | v => call_hook hooks (type_of v)

/-- The encoder entry point: `Val.size v` strictly dominates the recursion
depth of `_pytype_to_pyarrow_type` on `v`, so this fuel is always sufficient
(the fuel-congruence lemma below makes the choice irrelevant). -/
def pytype_to_pyarrow_type (hooks : List (PyType × Resolver)) (v : Val) :
    Except Error DataType :=
  pytype_to_pyarrow_type_go hooks (Val.size v) v

/-- `PyarrowTypeEncoder.encode` (lines 282-304). -/
def encode (hooks : List (PyType × Resolver)) (v : Val) : Except Error DataType :=
  pytype_to_pyarrow_type hooks v

/-- One row handed to the table encoder: a dict. -/
def Row : Type := List (PyKey × Val)

/-- The result of the table encoder, as far as this repository constructs it:
the declared schema (one named DataType per column, from `pa.schema(fields)`)
and the per-column value sequences handed to `pa.array` (from
`zip(*values)`).  The conversions done inside `pa.array`,
`pa.RecordBatch.from_arrays` and `pa.Table.from_batches` belong to the
external pyarrow library and stay outside the model. -/
structure Table where
  schema : List (PyKey × DataType)
  columns : List (List Val)

/-- `pa.field(column, self.type_encoder.encode(values[0][i]))` for the i-th
column: since `columns` are the first sorted row's keys and `values[0]` its
values, the pair at position i is exactly the i-th entry of that row. -/
def encode_field (hooks : List (PyType × Resolver)) (e : PyKey × Val) :
    Except Error (PyKey × DataType) :=
  (pytype_to_pyarrow_type hooks e.2).map fun t => (e.1, t)

/-- Heads of all the lists, or `none` if any list is exhausted; the building
block of Python `zip`. -/
def all_heads {α : Type} : List (List α) → Option (List α)
  | [] => some []
  | [] :: _ => none
  | (x :: _) :: rs =>
    match all_heads rs with
    | none => none
    | some hs => some (x :: hs)

/-- `zip(*values)` restricted to at least one row: produce tuples of the
positionally matched elements until the shortest row runs out. -/
def zip_star_go {α : Type} : List α → List (List α) → List (List α)
  | [], _ => []
  | x :: xs, rest =>
    match all_heads rest with
    | none => []
    | some hs => (x :: hs) :: zip_star_go xs (rest.map List.tail)

/-- `zip(*values)`: transpose the list of rows, truncating at the shortest
row; with no rows at all, `zip()` yields nothing. -/
def zip_star {α : Type} : List (List α) → List (List α)
  | [] => []
  | r :: rs => zip_star_go r rs

/-- `PyarrowTableEncoder._list_of_dicts_to_pyarrow_table` (lines 317-336):
an empty row list gives the empty table; otherwise every row is reordered by
key independently, the column names and the schema types come from the first
sorted row alone, and the column data are the positional transposition of all
the sorted rows' values. -/
def list_of_dicts_to_pyarrow_table (hooks : List (PyType × Resolver))
    (objects : List Row) : Except Error Table :=
  match objects with
  | [] => .ok ⟨[], []⟩
  | o0 :: rest =>
    match mapME order_by_key (o0 :: rest : List Row) with
    | .error e => .error e
    | .ok objs =>
      let first : Row := objs.headD []
      let values := objs.map fun d => d.map Prod.snd
      let rows := zip_star values
      match mapME (encode_field hooks) first with
      | .error e => .error e
      | .ok fields => .ok ⟨fields, rows⟩

/-- Module-level `dumps` (lines 354-360). -/
def dumps (hooks : List (PyType × Resolver)) (objects : List Row) : Except Error Table :=
  list_of_dicts_to_pyarrow_table (init_hooks hooks) objects

/-! Supporting lemmas about the embedded pyarrow encoder. -/

/-- Pointwise-equal functions give equal `mapME` runs. -/
theorem mapME_congr {ε α β : Type} {f g : α → Except ε β} :
    ∀ {l : List α}, (∀ a ∈ l, f a = g a) → mapME f l = mapME g l := by
  intro l
  induction l with
  | nil => intro _; rfl
  | cons x xs ih =>
    intro h
    simp only [mapME, h x (List.mem_cons_self x xs), ih fun a ha => h a (List.mem_cons_of_mem x ha)]

/-- A successful `ordered_insert` permutes the inserted item into the list. -/
theorem ordered_insert_ok_perm {β : Type} {x : PyKey × β} :
    ∀ {l out : List (PyKey × β)}, ordered_insert x l = .ok out → out.Perm (x :: l) := by
  intro l
  induction l with
  | nil =>
    intro out h
    simp only [ordered_insert, Except.ok.injEq] at h
    exact h ▸ List.Perm.refl _
  | cons y ys ih =>
    intro out h
    simp only [ordered_insert] at h
    rcases hk : key_le x.1 y.1 with e | b
    · rw [hk] at h; cases h
    · rw [hk] at h
      cases b with
      | true =>
        simp only [Except.ok.injEq] at h
        exact h ▸ List.Perm.refl _
      | false =>
        rcases hri : ordered_insert x ys with e | r
        · rw [hri] at h; cases h
        · rw [hri] at h
          simp only [Except.map, Except.ok.injEq] at h
          subst h
          exact ((ih hri).cons y).trans (List.Perm.swap x y ys)

/-- A successful `order_by_key` permutes its input. -/
theorem order_by_key_ok_perm {β : Type} :
    ∀ {l out : List (PyKey × β)}, order_by_key l = .ok out → out.Perm l := by
  intro l
  induction l with
  | nil =>
    intro out h
    simp only [order_by_key, Except.ok.injEq] at h
    exact h ▸ List.Perm.refl _
  | cons x xs ih =>
    intro out h
    simp only [order_by_key] at h
    rcases hs : order_by_key xs with e | s
    · rw [hs] at h; cases h
    · rw [hs] at h
      exact (ordered_insert_ok_perm h).trans ((ih hs).cons x)

/-- Every value has positive size. -/
theorem Val.size_pos (v : Val) : 1 ≤ v.size := by
  cases v <;> simp [Val.size]

/-- A dict entry's value is smaller than the whole entry list. -/
theorem size_lt_of_mem_entries {e : PyKey × Val} :
    ∀ {es : List (PyKey × Val)}, e ∈ es → Val.size e.2 < Val.sizeEntries es := by
  intro es
  induction es with
  | nil => intro h; cases h
  | cons hd tl ih =>
    intro h
    obtain ⟨k, v⟩ := hd
    rcases List.mem_cons.mp h with h | h
    · subst h; simp only [Val.sizeEntries]; omega
    · have := ih h; simp only [Val.sizeEntries]; omega

/-- The result of the fueled encoder does not depend on the fuel, provided the
fuel is at least the size of the value. -/
theorem pytype_go_congr (hooks : List (PyType × Resolver)) :
    ∀ (f1 : Nat) (f2 : Nat) (v : Val), Val.size v ≤ f1 → Val.size v ≤ f2 →
      pytype_to_pyarrow_type_go hooks f1 v = pytype_to_pyarrow_type_go hooks f2 v := by
  intro f1
  induction f1 with
  | zero =>
    intro f2 v h1 _
    exact absurd h1 (by have := Val.size_pos v; omega)
  | succ f1 ih =>
    intro f2 v h1 h2
    cases f2 with
    | zero => exact absurd h2 (by have := Val.size_pos v; omega)
    | succ f2 =>
      cases v with
      | vint n => rfl
      | vstr s => rfl
      | vbool b => rfl
      | vbytes i => rfl
      | vfloat i => rfl
      | vother t => rfl
      | vlist xs =>
        cases xs with
        | nil => rfl
        | cons x xs =>
          simp only [pytype_to_pyarrow_type_go]
          rw [ih f2 x (by simp [Val.size, Val.sizeList] at h1; omega)
            (by simp [Val.size, Val.sizeList] at h2; omega)]
      | vdict entries =>
        simp only [pytype_to_pyarrow_type_go]
        rcases h : order_by_key entries with e | s
        · rfl
        · have hmem : ∀ e ∈ s, e ∈ entries := fun e he => (order_by_key_ok_perm h).subset he
          dsimp only
          congr 1
          apply mapME_congr
          intro e he
          have hlt := size_lt_of_mem_entries (hmem e he)
          rw [ih f2 e.2 (by simp [Val.size] at h1; omega) (by simp [Val.size] at h2; omega)]

/-- Unfolding the encoder at a dict: reorder, then encode each field through
the top-level encoder. -/
theorem pytype_to_pyarrow_type_vdict (hooks : List (PyType × Resolver))
    (entries : List (PyKey × Val)) :
    pytype_to_pyarrow_type hooks (.vdict entries) =
      match order_by_key entries with
      | .error e => .error e
      | .ok s => (mapME (encode_field hooks) s).map .struct := by
  have hsz : Val.size (Val.vdict entries) = Val.sizeEntries entries + 1 := by
    simp [Val.size]; omega
  rw [pytype_to_pyarrow_type, hsz]
  simp only [pytype_to_pyarrow_type_go]
  rcases h : order_by_key entries with e | s
  · rfl
  · have hmem : ∀ e ∈ s, e ∈ entries := fun e he => (order_by_key_ok_perm h).subset he
    dsimp only
    congr 1
    apply mapME_congr
    intro e he
    have hlt := size_lt_of_mem_entries (hmem e he)
    unfold encode_field pytype_to_pyarrow_type
    rw [pytype_go_congr hooks _ _ e.2 (by omega) (le_refl _)]

/-! Correctness of `order_by_key` on string-keyed dicts: it agrees with
Mathlib's insertion sort for the key order, hence is determined by the set of
items alone. -/

/-- `chars_le` is total. -/
theorem chars_le_total : ∀ (xs ys : List Char), chars_le xs ys = true ∨ chars_le ys xs = true := by
  intro xs
  induction xs with
  | nil => intro ys; left; rfl
  | cons c cs ih =>
    intro ys
    cases ys with
    | nil => right; rfl
    | cons d ds =>
      simp only [chars_le]
      rcases Nat.lt_trichotomy c.toNat d.toNat with h | h | h
      · left; rw [if_pos h]
      · rcases ih ds with h2 | h2
        · left; rw [if_neg (by omega), if_neg (by omega)]; exact h2
        · right; rw [if_neg (by omega), if_neg (by omega)]; exact h2
      · right; rw [if_pos h]

/-- `chars_le` is transitive. -/
theorem chars_le_trans :
    ∀ (xs ys zs : List Char), chars_le xs ys = true → chars_le ys zs = true →
      chars_le xs zs = true := by
  intro xs
  induction xs with
  | nil => intro ys zs _ _; rfl
  | cons c cs ih =>
    intro ys zs h1 h2
    cases ys with
    | nil => simp [chars_le] at h1
    | cons d ds =>
      cases zs with
      | nil => simp [chars_le] at h2
      | cons e es =>
        simp only [chars_le] at h1 h2 ⊢
        by_cases hcd : c.toNat < d.toNat
        · by_cases hde : d.toNat < e.toNat
          · rw [if_pos (by omega)]
          · by_cases hed : e.toNat < d.toNat
            · rw [if_neg hde, if_pos hed] at h2; exact absurd h2 (by simp)
            · rw [if_pos (by omega)]
        · by_cases hdc : d.toNat < c.toNat
          · rw [if_neg hcd, if_pos hdc] at h1; exact absurd h1 (by simp)
          · rw [if_neg hcd, if_neg hdc] at h1
            by_cases hde : d.toNat < e.toNat
            · rw [if_pos (by omega)]
            · by_cases hed : e.toNat < d.toNat
              · rw [if_neg hde, if_pos hed] at h2; exact absurd h2 (by simp)
              · rw [if_neg hde, if_neg hed] at h2
                rw [if_neg (by omega), if_neg (by omega)]
                exact ih ds es h1 h2

/-- `chars_le` is antisymmetric. -/
theorem chars_le_antisymm :
    ∀ (xs ys : List Char), chars_le xs ys = true → chars_le ys xs = true → xs = ys := by
  intro xs
  induction xs with
  | nil =>
    intro ys h1 h2
    cases ys with
    | nil => rfl
    | cons d ds => simp [chars_le] at h2
  | cons c cs ih =>
    intro ys h1 h2
    cases ys with
    | nil => simp [chars_le] at h1
    | cons d ds =>
      simp only [chars_le] at h1 h2
      by_cases hcd : c.toNat < d.toNat
      · rw [if_neg (by omega), if_pos hcd] at h2; exact absurd h2 (by simp)
      · by_cases hdc : d.toNat < c.toNat
        · rw [if_neg hcd, if_pos hdc] at h1; exact absurd h1 (by simp)
        · rw [if_neg hcd, if_neg hdc] at h1
          rw [if_neg hdc, if_neg hcd] at h2
          have hcdeq : c = d :=
            Char.ext (UInt32.ext (by simp only [Char.toNat] at hcd hdc; omega))
          rw [hcdeq, ih ds h1 h2]

/-- `str_le` is antisymmetric. -/
theorem str_le_antisymm {a b : String} (h1 : str_le a b = true) (h2 : str_le b a = true) :
    a = b :=
  String.ext (chars_le_antisymm _ _ h1 h2)

/-- The string every key is ordered by: its own characters for a string key,
irrelevant (and never consulted on all-string dicts) for an integer key. -/
def key_str : PyKey → String
  | .kstr s => s
  | .kint _ => ""

/-- The propositional order on dict items that `order_by_key` realises on
string-keyed dicts. -/
def key_rel {β : Type} (a b : PyKey × β) : Prop :=
  str_le (key_str a.1) (key_str b.1) = true

instance {β : Type} : DecidableRel (key_rel (β := β)) :=
  fun a b => inferInstanceAs (Decidable (str_le (key_str a.1) (key_str b.1) = true))

instance {β : Type} : IsTotal (PyKey × β) key_rel :=
  ⟨fun a b => chars_le_total (key_str a.1).data (key_str b.1).data⟩

instance {β : Type} : IsTrans (PyKey × β) key_rel :=
  ⟨fun _ _ _ h1 h2 => chars_le_trans _ _ _ h1 h2⟩

/-- The strict companion of `key_rel`; antisymmetric for free. -/
def key_srel {β : Type} (a b : PyKey × β) : Prop :=
  key_rel a b ∧ ¬ key_rel b a

instance {β : Type} : IsAntisymm (PyKey × β) (key_srel (β := β)) :=
  ⟨fun _ _ h1 h2 => absurd h1.1 h2.2⟩

/-- On string-keyed input, the fallible insertion step agrees with Mathlib's
`List.orderedInsert` for `key_rel`. -/
theorem ordered_insert_eq_orderedInsert {β : Type} {x : PyKey × β} :
    ∀ {l : List (PyKey × β)}, x.1.isStr = true → (∀ p ∈ l, p.1.isStr = true) →
      ordered_insert x l = .ok (List.orderedInsert key_rel x l) := by
  intro l
  induction l with
  | nil => intro _ _; rfl
  | cons y ys ih =>
    intro hx hl
    obtain ⟨sx, hsx⟩ : ∃ s, x.1 = .kstr s := by
      cases hxk : x.1 with
      | kstr s => exact ⟨s, rfl⟩
      | kint n => rw [hxk] at hx; simp [PyKey.isStr] at hx
    obtain ⟨sy, hsy⟩ : ∃ s, y.1 = .kstr s := by
      have := hl y (List.mem_cons_self y ys)
      cases hyk : y.1 with
      | kstr s => exact ⟨s, rfl⟩
      | kint n => rw [hyk] at this; simp [PyKey.isStr] at this
    have hkey : key_le x.1 y.1 = .ok (str_le sx sy) := by rw [hsx, hsy]; rfl
    have hrel : key_rel x y = (str_le sx sy = true) := by
      simp only [key_rel, key_str, hsx, hsy]
    simp only [ordered_insert, hkey]
    cases hab : str_le sx sy with
    | true =>
      dsimp only
      have hkr : key_rel x y := by rw [hrel]; exact hab
      simp only [List.orderedInsert, if_pos hkr]
    | false =>
      dsimp only
      rw [ih hx fun p hp => hl p (List.mem_cons_of_mem y hp)]
      have hnot : ¬ key_rel x y := by rw [hrel]; simp [hab]
      simp only [Except.map, List.orderedInsert, if_neg hnot]

/-- On string-keyed input, `order_by_key` is Mathlib's insertion sort for
`key_rel` (in particular it succeeds). -/
theorem order_by_key_eq_insertionSort {β : Type} :
    ∀ {l : List (PyKey × β)}, (∀ p ∈ l, p.1.isStr = true) →
      order_by_key l = .ok (List.insertionSort key_rel l) := by
  intro l
  induction l with
  | nil => intro _; rfl
  | cons x xs ih =>
    intro hl
    have hxs : ∀ p ∈ xs, p.1.isStr = true := fun p hp => hl p (List.mem_cons_of_mem x hp)
    have hsorted_str : ∀ p ∈ List.insertionSort key_rel xs, p.1.isStr = true :=
      fun p hp => hxs p ((List.perm_insertionSort key_rel xs).subset hp)
    simp only [order_by_key, ih hxs]
    exact ordered_insert_eq_orderedInsert (hl x (List.mem_cons_self x xs)) hsorted_str

/-- A `key_rel`-sorted, string-keyed item list with distinct keys is sorted
for the strict order as well. -/
theorem sorted_srel_of_sorted {β : Type} {l : List (PyKey × β)} (hs : l.Sorted (key_rel (β := β)))
    (hnd : (l.map Prod.fst).Nodup) (hstr : ∀ p ∈ l, p.1.isStr = true) :
    l.Sorted (key_srel (β := β)) := by
  have hne : l.Pairwise fun a b => a.1 ≠ b.1 := List.pairwise_map.mp hnd
  refine (hs.and hne).imp_of_mem ?_
  intro a b ha hb hab
  refine ⟨hab.1, fun hba => ?_⟩
  have hstr_eq : key_str a.1 = key_str b.1 := str_le_antisymm hab.1 hba
  obtain ⟨sa, hsa⟩ : ∃ s, a.1 = .kstr s := by
    have := hstr a ha
    cases hk : a.1 with
    | kstr s => exact ⟨s, rfl⟩
    | kint n => rw [hk] at this; simp [PyKey.isStr] at this
  obtain ⟨sb, hsb⟩ : ∃ s, b.1 = .kstr s := by
    have := hstr b hb
    cases hk : b.1 with
    | kstr s => exact ⟨s, rfl⟩
    | kint n => rw [hk] at this; simp [PyKey.isStr] at this
  apply hab.2
  rw [hsa, hsb]
  rw [hsa, hsb] at hstr_eq
  simp only [key_str] at hstr_eq
  rw [hstr_eq]

/-- Sorting is determined by the multiset of items: two permuted string-keyed
dicts with distinct keys reorder to the same item list. -/
theorem order_by_key_perm_eq {β : Type} {l1 l2 : List (PyKey × β)} (hperm : l1.Perm l2)
    (hnd : (l1.map Prod.fst).Nodup) (hstr : ∀ p ∈ l1, p.1.isStr = true) :
    order_by_key l1 = order_by_key l2 := by
  have hstr2 : ∀ p ∈ l2, p.1.isStr = true := fun p hp => hstr p (hperm.symm.subset hp)
  have hnd2 : (l2.map Prod.fst).Nodup := ((hperm.map Prod.fst).nodup_iff).mp hnd
  rw [order_by_key_eq_insertionSort hstr, order_by_key_eq_insertionSort hstr2]
  have p1 := List.perm_insertionSort (key_rel (β := β)) l1
  have p2 := List.perm_insertionSort (key_rel (β := β)) l2
  have heq : List.insertionSort key_rel l1 = List.insertionSort key_rel l2 := by
    apply List.eq_of_perm_of_sorted (r := key_srel (β := β)) (p1.trans (hperm.trans p2.symm))
    · exact sorted_srel_of_sorted (List.sorted_insertionSort _ l1)
        (((p1.map Prod.fst).nodup_iff).mpr hnd) (fun p hp => hstr p (p1.subset hp))
    · exact sorted_srel_of_sorted (List.sorted_insertionSort _ l2)
        (((p2.map Prod.fst).nodup_iff).mpr hnd2) (fun p hp => hstr2 p (p2.subset hp))
  rw [heq]

/-! Failure analysis of `order_by_key`: a comparison succeeds only between
keys of one kind, and every failure is the host comparison TypeError. -/

/-- A successful comparison relates keys of the same kind. -/
theorem key_le_ok_kind {a b : PyKey} {c : Bool} (h : key_le a b = .ok c) :
    a.isStr = b.isStr := by
  cases a <;> cases b <;> simp [key_le, PyKey.isStr] at h ⊢

/-- A failed comparison is exactly the host comparison error. -/
theorem key_le_error_shape {a b : PyKey} {e : Error} (h : key_le a b = .error e) :
    e = .cmp_error a b := by
  cases a <;> cases b <;> simp_all [key_le]

/-- A failed insertion fails with a comparison error. -/
theorem ordered_insert_error_shape {β : Type} {x : PyKey × β} :
    ∀ {l : List (PyKey × β)} {e : Error}, ordered_insert x l = .error e →
      ∃ a b, e = .cmp_error a b := by
  intro l
  induction l with
  | nil => intro e h; cases h
  | cons y ys ih =>
    intro e h
    simp only [ordered_insert] at h
    rcases hk : key_le x.1 y.1 with e' | b
    · rw [hk] at h
      dsimp only at h
      injection h with h
      exact ⟨x.1, y.1, h ▸ key_le_error_shape hk⟩
    · rw [hk] at h
      cases b with
      | true => cases h
      | false =>
        rcases hri : ordered_insert x ys with e' | r
        · rw [hri] at h
          simp only [Except.map] at h
          injection h with h
          exact h ▸ ih hri
        · rw [hri] at h
          simp only [Except.map] at h
          cases h

/-- A failed sort fails with a comparison error. -/
theorem order_by_key_error_shape {β : Type} :
    ∀ {l : List (PyKey × β)} {e : Error}, order_by_key l = .error e →
      ∃ a b, e = .cmp_error a b := by
  intro l
  induction l with
  | nil => intro e h; cases h
  | cons x xs ih =>
    intro e h
    simp only [order_by_key] at h
    rcases hs : order_by_key xs with e' | s
    · rw [hs] at h
      injection h with h
      exact h ▸ ih hs
    · rw [hs] at h
      exact ordered_insert_error_shape h

/-- When the sort succeeds, all keys of the input are of one kind (strings
throughout or integers throughout), for lists of two or more items. -/
theorem order_by_key_ok_same_kind {β : Type} :
    ∀ {l out : List (PyKey × β)}, order_by_key l = .ok out →
      ∀ p ∈ l, ∀ q ∈ l, p.1.isStr = q.1.isStr := by
  intro l
  induction l with
  | nil => intro out _ p hp; cases hp
  | cons x xs ih =>
    intro out h p hp q hq
    simp only [order_by_key] at h
    rcases hs : order_by_key xs with e | s
    · rw [hs] at h; cases h
    · rw [hs] at h
      have hxs_kind := ih hs
      have hx_xs : ∀ q ∈ xs, x.1.isStr = q.1.isStr := by
        intro q hq2
        have hperm := order_by_key_ok_perm hs
        cases s with
        | nil =>
          rw [List.Perm.eq_nil hperm.symm] at hq2
          cases hq2
        | cons y ys =>
          simp only [ordered_insert] at h
          rcases hk : key_le x.1 y.1 with e | b
          · rw [hk] at h; cases h
          · have hy_xs : y ∈ xs := hperm.subset (List.mem_cons_self y ys)
            exact (key_le_ok_kind hk).trans (hxs_kind y hy_xs q hq2)
      rcases List.mem_cons.mp hp with rfl | hp' <;> rcases List.mem_cons.mp hq with rfl | hq'
      · rfl
      · exact hx_xs q hq'
      · exact (hx_xs p hp').symm
      · exact hxs_kind p hp' q hq'

/-- A dict that mixes a string key with an integer key cannot be sorted: the
host comparison error surfaces. -/
theorem order_by_key_mixed_error {β : Type} {l : List (PyKey × β)}
    (h1 : ∃ p ∈ l, p.1.isStr = true) (h2 : ∃ p ∈ l, p.1.isStr = false) :
    ∃ a b, order_by_key l = .error (.cmp_error a b) := by
  rcases hres : order_by_key l with e | s
  · obtain ⟨a, b, rfl⟩ := order_by_key_error_shape hres
    exact ⟨a, b, rfl⟩
  · obtain ⟨p, hp, hps⟩ := h1
    obtain ⟨q, hq, hqs⟩ := h2
    have := order_by_key_ok_same_kind hres p hp q hq
    rw [hps, hqs] at this
    cases this

/-! Transposition facts about `zip_star` for same-length rows. -/

/-- When no row is empty, `all_heads` collects every head. -/
theorem all_heads_of_ne_nil {α : Type} (d : α) :
    ∀ {vs : List (List α)}, (∀ v ∈ vs, v ≠ []) →
      all_heads vs = some (vs.map fun v => v.headD d) := by
  intro vs
  induction vs with
  | nil => intro _; rfl
  | cons v rest ih =>
    intro h
    cases v with
    | nil => exact absurd rfl (h [] (List.mem_cons_self [] rest))
    | cons a as =>
      simp only [all_heads, ih fun w hw => h w (List.mem_cons_of_mem _ hw), List.map_cons]
      rfl

/-- Reading past the head is reading the tail. -/
theorem getD_succ_tail {α : Type} (d : α) (v : List α) (j : Nat) :
    v.getD (j + 1) d = v.tail.getD j d := by
  cases v <;> rfl

/-- For rows of equal length, `zip_star_go` is the positional transpose. -/
theorem zip_star_go_transpose {α : Type} (d : α) :
    ∀ (v0 : List α) (vs : List (List α)), (∀ v ∈ vs, v.length = v0.length) →
      zip_star_go v0 vs =
        (List.range v0.length).map fun j => (v0 :: vs).map fun v => v.getD j d := by
  intro v0
  induction v0 with
  | nil => intro vs _; rfl
  | cons x xs ih =>
    intro vs h
    have hne : ∀ v ∈ vs, v ≠ [] := by
      intro v hv hnil
      have := h v hv
      rw [hnil] at this
      simp at this
    rw [List.length_cons, List.range_succ_eq_map]
    simp only [zip_star_go, all_heads_of_ne_nil d hne, List.map_cons]
    congr 1
    · congr 1
      apply List.map_congr_left
      intro v _
      cases v with
      | nil => rfl
      | cons a as => rfl
    · rw [ih (vs.map List.tail) ?hlen]
      case hlen =>
        intro v hv
        obtain ⟨w, hw, rfl⟩ := List.mem_map.mp hv
        have := h w hw
        simp only [List.length_tail, List.length_cons] at this ⊢
        omega
      rw [List.map_map]
      apply List.map_congr_left
      intro j _
      simp only [Function.comp, List.map_cons, List.getD_cons_succ, List.map_map]
      congr 1
      apply List.map_congr_left
      intro v _
      exact (getD_succ_tail d v j).symm

/-- For rows of equal length, `zip_star` is the positional transpose. -/
theorem zip_star_transpose {α : Type} (d : α) (v0 : List α) (vs : List (List α))
    (h : ∀ v ∈ vs, v.length = v0.length) :
    zip_star (v0 :: vs) =
      (List.range v0.length).map fun j => (v0 :: vs).map fun v => v.getD j d :=
  zip_star_go_transpose d v0 vs h

/-- Unfolding the encoder at a non-empty list: the descriptor is `pa.list_` of
the encoding of the first element, whatever the remaining elements are. -/
theorem pytype_to_pyarrow_type_vlist_cons (hooks : List (PyType × Resolver))
    (x : Val) (xs : List Val) :
    pytype_to_pyarrow_type hooks (.vlist (x :: xs)) =
      (pytype_to_pyarrow_type hooks x).map .list_ := by
  have hsz : Val.size (Val.vlist (x :: xs)) = (Val.size x + Val.sizeList xs) + 2 := by
    simp [Val.size, Val.sizeList]; omega
  rw [pytype_to_pyarrow_type, hsz]
  show (pytype_to_pyarrow_type_go hooks (Val.size x + Val.sizeList xs + 1) x).map _ = _
  rw [pytype_to_pyarrow_type]
  rw [pytype_go_congr hooks _ _ x (by omega) (le_refl _)]

end Pyarrow

/-! The claims, settled against the embedding above. -/

/-- C1: the claim says a hook-table entry short-circuits every other
classification, in both variants, at top level and for nested values.  The
code disagrees: evaluated at the failing inputs, the SQL variant raises the
nested-type error for a hooked `list` value inside a mapping (the hook table
is consulted only for the top-level type, and `_validate_object_types` raises
for NESTED types even when they carry a hook, contradicting the module's own
comment that a decoder overrides this), and the columnar variant decomposes a
mapping field by field even though `dict` has a hook. -/
theorem c1_hook_precedence_code_eval :
    Postgresql.dumps [(.listT, .literal "integer[]")]
        (.pdict [("a", .pseq .listT [.atom .intT, .atom .intT])]) =
      .error (.nested .listT) ∧
    Pyarrow.encode (Pyarrow.init_hooks [(.dictT, .fn fun _ => .string)])
        (.vdict [(.kstr "a", .vint 0)]) =
      .ok (.struct [(.kstr "a", .int64)]) :=
  ⟨rfl, rfl⟩

/-- C2: the claim says a mapping holding an unhooked nested value (a list)
fails with NestedTypeError.  Evaluated at that input, the code raises the
missing-entry error (`SQL does not have a type corresponding to ...`, the
UnsupportedTypeError kind) instead, because the hook-membership check precedes
the NESTED check; the two error kinds are distinct. -/
theorem c2_nested_error_code_eval :
    Postgresql.dumps [] (.pdict [("a", .pseq .listT [.atom .intT])]) =
      .error (.no_corresponding .listT) ∧
    Postgresql.Error.no_corresponding .listT ≠ Postgresql.Error.nested .listT :=
  ⟨rfl, by decide⟩

/-- C3 counterexample: a complex scalar with no hook does not fail with either
UnsupportedTypeError shape; it fails with the final cannot-encode fallback. -/
theorem c3_counterexample :
    Postgresql.dumps [] (.atom .complexT) = .error .cannot_encode ∧
    Postgresql.Error.cannot_encode ≠ .no_corresponding .complexT ∧
    Postgresql.Error.cannot_encode ≠ .no_default .complexT :=
  ⟨rfl, by decide, by decide⟩

/-- C3 (amended): in the SQL variant, a complex scalar whose type has no hook
fails with the UnencodableTypeError fallback (`cannot_encode`): complex is not
a dict, not iterable, and unhooked, so the final raise of `encode` fires. -/
theorem c3_amended_unencodable (hooks : List (PyType × Postgresql.Resolver))
    (h : hook_lookup (Postgresql.init_hooks hooks) .complexT = none) :
    Postgresql.dumps hooks (.atom .complexT) = .error .cannot_encode := by
  simp [Postgresql.dumps, Postgresql.encode, Postgresql.type_of, h]

/-- C3 witness: the amended theorem applied to the default encoder. -/
theorem c3_amended_witness :
    hook_lookup (Postgresql.init_hooks []) .complexT = none ∧
    Postgresql.dumps [] (.atom .complexT) = .error .cannot_encode :=
  ⟨rfl, c3_amended_unencodable [] rfl⟩

/-- C4 counterexample: in the columnar variant a literal (non-callable) hook
entry is not returned unchanged; the encoder calls it and the host raises. -/
theorem c4_counterexample :
    Pyarrow.call_hook (Pyarrow.init_hooks [(.complexT, .literal .int64)]) .complexT =
      .error .not_callable ∧
    Except.error Pyarrow.Error.not_callable ≠ Except.ok Pyarrow.DataType.int64 :=
  ⟨rfl, by simp⟩

/-- C4 (amended): the SQL variant's resolver returns a literal string
unchanged, invokes a callable with the runtime type, and fails with the
ConfigurationError kind otherwise; the columnar variant always invokes the
stored entry as a zero-argument callable, so a callable entry's result is
returned and a literal entry raises the host not-callable error. -/
theorem c4_amended_resolver :
    (∀ (hooks : List (PyType × Postgresql.Resolver)) (t : PyType) (s : String),
      hook_lookup hooks t = some (.literal s) → Postgresql.resolve_hook hooks t = .ok s) ∧
    (∀ (hooks : List (PyType × Postgresql.Resolver)) (t : PyType) (f : PyType → String),
      hook_lookup hooks t = some (.fn f) → Postgresql.resolve_hook hooks t = .ok (f t)) ∧
    (∀ (hooks : List (PyType × Postgresql.Resolver)) (t : PyType),
      hook_lookup hooks t = some .invalid →
        Postgresql.resolve_hook hooks t = .error (.hook_not_str_or_callable t)) ∧
    (∀ (hooks : List (PyType × Pyarrow.Resolver)) (t : PyType) (f : Unit → Pyarrow.DataType),
      hook_lookup hooks t = some (.fn f) → Pyarrow.call_hook hooks t = .ok (f ())) ∧
    (∀ (hooks : List (PyType × Pyarrow.Resolver)) (t : PyType) (d : Pyarrow.DataType),
      hook_lookup hooks t = some (.literal d) →
        Pyarrow.call_hook hooks t = .error .not_callable) := by
  refine ⟨?_, ?_, ?_, ?_, ?_⟩
  · intro hooks t s h; simp [Postgresql.resolve_hook, h]
  · intro hooks t f h; simp [Postgresql.resolve_hook, h]
  · intro hooks t h; simp [Postgresql.resolve_hook, h]
  · intro hooks t f h; simp [Pyarrow.call_hook, h]
  · intro hooks t d h; simp [Pyarrow.call_hook, h]

/-- C4 witness: each resolver case of the amended theorem at a concrete
table. -/
theorem c4_amended_resolver_witness :
    Postgresql.resolve_hook (Postgresql.init_hooks []) .intT = .ok "integer" ∧
    Postgresql.resolve_hook [(.otherT "datetime", .fn fun _ => "timestamp")]
      (.otherT "datetime") = .ok "timestamp" ∧
    Postgresql.resolve_hook [(.complexT, .invalid)] .complexT =
      .error (.hook_not_str_or_callable .complexT) ∧
    Pyarrow.call_hook (Pyarrow.init_hooks []) .intT = .ok .int64 ∧
    Pyarrow.call_hook [(.complexT, .literal .int64)] .complexT = .error .not_callable :=
  ⟨c4_amended_resolver.1 _ _ _ rfl,
   c4_amended_resolver.2.1 [(.otherT "datetime", .fn fun _ => "timestamp")]
     (.otherT "datetime") (fun _ => "timestamp") rfl,
   c4_amended_resolver.2.2.1 _ _ rfl,
   c4_amended_resolver.2.2.2.1 (Pyarrow.init_hooks []) .intT (fun _ => .int64) rfl,
   c4_amended_resolver.2.2.2.2 _ _ _ rfl⟩

/-- C5: in the columnar variant, two string-keyed mappings with the same
key/value pairs in different insertion orders encode to the same descriptor,
struct field order included, because each mapping level is normalised to
ascending key order before its fields are encoded. -/
theorem c5_key_order_invariance (hooks : List (PyType × Pyarrow.Resolver))
    (e1 e2 : List (Pyarrow.PyKey × Pyarrow.Val))
    (hperm : e1.Perm e2) (hnd : (e1.map Prod.fst).Nodup)
    (hstr : ∀ p ∈ e1, p.1.isStr = true) :
    Pyarrow.encode hooks (.vdict e1) = Pyarrow.encode hooks (.vdict e2) := by
  unfold Pyarrow.encode
  rw [Pyarrow.pytype_to_pyarrow_type_vdict, Pyarrow.pytype_to_pyarrow_type_vdict,
    Pyarrow.order_by_key_perm_eq hperm hnd hstr]

/-- C5 witness: the invariance theorem applied to a two-field mapping and its
reversal, under the default hooks. -/
theorem c5_witness :
    ([((Pyarrow.PyKey.kstr "b"), Pyarrow.Val.vint 1), (.kstr "a", .vstr "x")].Perm
      [((Pyarrow.PyKey.kstr "a"), Pyarrow.Val.vstr "x"), (.kstr "b", .vint 1)]) ∧
    Pyarrow.encode (Pyarrow.init_hooks [])
        (.vdict [(.kstr "b", .vint 1), (.kstr "a", .vstr "x")]) =
      Pyarrow.encode (Pyarrow.init_hooks [])
        (.vdict [(.kstr "a", .vstr "x"), (.kstr "b", .vint 1)]) :=
  ⟨List.Perm.swap _ _ _,
   c5_key_order_invariance (Pyarrow.init_hooks []) _ _ (List.Perm.swap _ _ _)
     (by decide) (by decide)⟩

/-- C6: the claim says every error message reports the offending runtime
type.  The final raise of the SQL `encode` never formats its placeholder
(there is no `.format(obj_t)` call at lines 139-144), so the same payload-free
error value is produced for distinct offending types: the message cannot be
reporting the type. -/
theorem c6_error_reporting_code_eval :
    Postgresql.dumps [] (.atom .complexT) = .error .cannot_encode ∧
    Postgresql.dumps [] (.atom (.otherT "Decimal")) = .error .cannot_encode :=
  ⟨rfl, rfl⟩

/-- C7: in the columnar variant a non-empty list encodes to `pa.list_` of the
encoding of its first element, whatever the other elements are, and the empty
list fails with the EmptyListError kind. -/
theorem c7_list_descriptor (hooks : List (PyType × Pyarrow.Resolver)) (x : Pyarrow.Val)
    (xs : List Pyarrow.Val) :
    Pyarrow.encode hooks (.vlist (x :: xs)) = (Pyarrow.encode hooks x).map .list_ ∧
    Pyarrow.encode hooks (.vlist []) = .error .empty_list :=
  ⟨Pyarrow.pytype_to_pyarrow_type_vlist_cons hooks x xs, rfl⟩

/-- C8: the table assembler returns the empty table for zero rows; for one or
more rows it reorders every row by key independently, takes the schema (field
names, order, and types) from the first reordered row alone, and fills the
columns with the values taken positionally from every reordered row. -/
theorem c8_table_assembler (hooks : List (PyType × Pyarrow.Resolver))
    (o0 : Pyarrow.Row) (os : List Pyarrow.Row)
    (s0 : Pyarrow.Row) (ss : List Pyarrow.Row)
    (fs : List (Pyarrow.PyKey × Pyarrow.DataType))
    (h0 : Pyarrow.order_by_key o0 = .ok s0)
    (hs : mapME Pyarrow.order_by_key os = .ok ss)
    (hlen : ∀ s ∈ ss, s.length = s0.length)
    (hf : mapME (Pyarrow.encode_field hooks) s0 = .ok fs) :
    Pyarrow.list_of_dicts_to_pyarrow_table hooks (o0 :: os) =
      .ok ⟨fs, (List.range s0.length).map fun j =>
        (s0 :: ss).map fun s => (s.map Prod.snd).getD j (Pyarrow.Val.vint 0)⟩ ∧
    Pyarrow.list_of_dicts_to_pyarrow_table hooks [] = .ok ⟨[], []⟩ := by
  refine ⟨?_, rfl⟩
  have hmap : mapME Pyarrow.order_by_key (o0 :: os : List Pyarrow.Row) = .ok (s0 :: ss) := by
    simp only [mapME, h0, hs]
  unfold Pyarrow.list_of_dicts_to_pyarrow_table
  simp only [hmap, List.headD_cons, hf]
  refine congrArg Except.ok ?_
  refine congrArg (Pyarrow.Table.mk fs) ?_
  show Pyarrow.zip_star ((s0 :: ss).map fun d => d.map Prod.snd) = _
  rw [List.map_cons]
  rw [Pyarrow.zip_star_transpose (Pyarrow.Val.vint 0) _ _ ?hl]
  case hl =>
    intro v hv
    obtain ⟨w, hw, rfl⟩ := List.mem_map.mp hv
    simp [hlen w hw]
  rw [List.length_map]
  apply List.map_congr_left
  intro j _
  simp only [← List.map_cons, List.map_map]
  rfl

/-- C8 witness: the assembler theorem at a two-row, two-column input with the
default hooks, reproducing the documented example table. -/
theorem c8_witness :
    Pyarrow.list_of_dicts_to_pyarrow_table (Pyarrow.init_hooks [])
        [[(.kstr "id", .vint 0), (.kstr "value", .vint 1)],
         [(.kstr "id", .vint 1), (.kstr "value", .vint 4)]] =
      .ok ⟨[(.kstr "id", .int64), (.kstr "value", .int64)],
           [[.vint 0, .vint 1], [.vint 1, .vint 4]]⟩ :=
  (c8_table_assembler (Pyarrow.init_hooks [])
    [(.kstr "id", .vint 0), (.kstr "value", .vint 1)]
    [[(.kstr "id", .vint 1), (.kstr "value", .vint 4)]]
    [(.kstr "id", .vint 0), (.kstr "value", .vint 1)]
    [[(.kstr "id", .vint 1), (.kstr "value", .vint 4)]]
    [(.kstr "id", .int64), (.kstr "value", .int64)]
    rfl rfl (by decide) rfl).1.trans rfl

/-- C9: in the SQL variant, with the default encoder, an empty mapping
encodes to an empty column mapping and an empty sequence of any unhooked
iterable type encodes to an empty descriptor list; neither is an error. -/
theorem c9_empty_collections (t : PyType)
    (h : hook_lookup (Postgresql.init_hooks []) t = none) :
    Postgresql.dumps [] (.pdict []) = .ok (.columns []) ∧
    Postgresql.dumps [] (.pseq t []) = .ok (.types []) := by
  refine ⟨rfl, ?_⟩
  simp [Postgresql.dumps, Postgresql.encode, Postgresql.type_of, h,
    Postgresql.iter_to_sql_types, Postgresql.validate_object_types,
    Postgresql.check_types, mapME, Except.map]

/-- C9 witness: the empty-collection theorem applied at the list type. -/
theorem c9_witness :
    hook_lookup (Postgresql.init_hooks []) .listT = none ∧
    (Postgresql.dumps [] (.pdict []) = .ok (.columns []) ∧
     Postgresql.dumps [] (.pseq .listT []) = .ok (.types [])) :=
  ⟨rfl, c9_empty_collections .listT rfl⟩

/-- C10: in the columnar variant, a mapping level mixing a string key with an
integer key makes encode fail with the host comparison error raised by the
key sort, an error kind distinct from every error kind named by the spec
(EmptyListError, UnsupportedTypeError, ConfigurationError). -/
theorem c10_incomparable_keys (hooks : List (PyType × Pyarrow.Resolver))
    (entries : List (Pyarrow.PyKey × Pyarrow.Val))
    (h1 : ∃ p ∈ entries, p.1.isStr = true) (h2 : ∃ p ∈ entries, p.1.isStr = false) :
    ∃ a b, Pyarrow.encode hooks (.vdict entries) = .error (.cmp_error a b) ∧
      ∀ t : PyType, Pyarrow.Error.cmp_error a b ≠ .empty_list ∧
        Pyarrow.Error.cmp_error a b ≠ .key_error t ∧
        Pyarrow.Error.cmp_error a b ≠ .not_callable := by
  obtain ⟨a, b, hab⟩ := Pyarrow.order_by_key_mixed_error h1 h2
  refine ⟨a, b, ?_, fun t => ⟨by simp, by simp, by simp⟩⟩
  unfold Pyarrow.encode
  rw [Pyarrow.pytype_to_pyarrow_type_vdict, hab]

/-- C10 witness: the incomparable-keys theorem at a mapping with one string
key and one integer key, under the default hooks. -/
theorem c10_witness :
    (∃ p ∈ ([(Pyarrow.PyKey.kstr "a", Pyarrow.Val.vint 0), (.kint 0, .vint 1)] :
        List (Pyarrow.PyKey × Pyarrow.Val)), p.1.isStr = true) ∧
    (∃ p ∈ ([(Pyarrow.PyKey.kstr "a", Pyarrow.Val.vint 0), (.kint 0, .vint 1)] :
        List (Pyarrow.PyKey × Pyarrow.Val)), p.1.isStr = false) ∧
    ∃ a b, Pyarrow.encode (Pyarrow.init_hooks [])
        (.vdict [(.kstr "a", .vint 0), (.kint 0, .vint 1)]) =
          .error (.cmp_error a b) ∧
      ∀ t : PyType, Pyarrow.Error.cmp_error a b ≠ .empty_list ∧
        Pyarrow.Error.cmp_error a b ≠ .key_error t ∧
        Pyarrow.Error.cmp_error a b ≠ .not_callable :=
  ⟨⟨_, List.mem_cons_self _ _, rfl⟩,
   ⟨_, List.mem_cons_of_mem _ (List.mem_cons_self _ _), rfl⟩,
   c10_incomparable_keys (Pyarrow.init_hooks []) _
     ⟨_, List.mem_cons_self _ _, rfl⟩
     ⟨_, List.mem_cons_of_mem _ (List.mem_cons_self _ _), rfl⟩⟩
